import Mathlib

/-!
Verification of the orca core execution engine (graph, run state, runner state
machine) against its natural-language specification.  The definitions below are
a shallow embedding of `src/orca/core/graph.py`, `src/orca/core/state.py`,
`src/orca/core/events.py` and `src/orca/core/runner.py`.  Pydantic validation,
`model_dump`, and the observability sinks are external collaborators and enter
as an explicit environment.  Machine specifics that no claim touches (UTC
timestamps on events, the floating-point cost counter) are omitted and noted
at their definition sites.
-/

namespace Orca

/-- Identifier of a Pydantic model class.  Edge compatibility in the source is
`src_out is dst_in` (nominal class identity, `graph.py` line 264), modelled as
equality of identifiers. -/
abbrev ModelTy := Nat

/-- The closed set of event types (`orca/core/events.py`). -/
inductive EvType where
  | run_started
  | run_finished
  | node_started
  | node_finished
  | node_failed
  | checkpoint_saved
  | human_gate_pending
  | human_gate_approved
deriving DecidableEq, Repr

/-- One structured occurrence (`orca/core/events.py`).  The UTC timestamp field
is omitted: no claim concerns time.  `data` models the payload dict: the runner
only ever stores an "error" entry carrying `repr(e)` on `node_failed`; `none`
stands for the empty dict. -/
structure Event where
  type : EvType
  run_id : Option String := none
  node : Option String := none
  data : Option String := none
deriving DecidableEq, Repr

/-- Lookup in an insertion-ordered association list (Python `dict` access;
keys are unique in every dict the engine builds). -/
def lookupA {α : Type} : List (String × α) → String → Option α
  | [], _ => none
  | (k, v) :: t, key => if k = key then some v else lookupA t key

/-- Python `dict` assignment: replace in place when the key exists, else
append (insertion order preserved). -/
def updateA {α : Type} : List (String × α) → String → α → List (String × α)
  | [], key, v => [(key, v)]
  | (k, w) :: t, key, v =>
      if k = key then (key, v) :: t else (k, w) :: updateA t key v

/-- Run metadata (`orca/core/state.py`).  The floating-point `total_cost`
counter is omitted: it is accounting only, never read by the engine. -/
structure RunMetadata where
  schema_version : String := "1.0"
  seed : Option Int := none
  total_tokens : Nat := 0
deriving DecidableEq, Repr

/-- The run-scoped mutable state (`orca/core/state.py`).  `V` is the type of
JSON-serializable Python values (model instances, dumps, context payloads). -/
structure RunState (V : Type) where
  run_id : String
  context : List (String × V) := []
  artifacts : List (String × V) := []
  events : List Event := []
  node_outputs : List (String × V) := []
  metadata : RunMetadata := {}
deriving DecidableEq, Repr

/-- Result of one `Node.run` invocation: a returned value, the
`HumanInputRequired` control signal, or an arbitrary raised error (the message
stands for `repr(e)` of the exception). -/
inductive NodeOutcome (V : Type) where
  | ok (v : V)
  | humanInput
  | err (msg : String)

/-- A typed processing unit (`orca/core/node.py`).  `error_policy` and
`budget` are omitted: they are advisory and the engine never reads them.
Nodes receive the shared `RunState` for reading; no claim involves a node
mutating it, so `run` is modelled as returning only the outcome. -/
structure Node (V : Type) where
  name : String
  input_model : ModelTy
  output_model : ModelTy
  run : V → RunState V → NodeOutcome V

/-- Directed connection between two nodes (`orca/core/graph.py`). -/
structure Edge where
  src : String
  dst : String
deriving DecidableEq, Repr

/-- The graph: insertion-ordered node mapping, ordered edge list, optional
entrypoint (`orca/core/graph.py`). -/
structure Graph (V : Type) where
  nodes : List (String × Node V) := []
  edges : List Edge := []
  entrypoint : Option String := none

/-- The distinct `ValidationError` conditions raised by `Graph` operations
(the source raises one exception class with distinct messages).
`missingNode` models the `KeyError` a dangling edge endpoint would raise in
`validate`, unreachable through the `add_node`/`connect` API. -/
inductive GraphErr where
  | duplicateNode (name : String)
  | unknownEdgeNodes (src dst : String)
  | unknownEntry (name : String)
  | noEntrypoint
  | typeMismatch (src dst : String) (srcOut dstIn : ModelTy)
  | tooLarge
  | missingNode (name : String)
deriving DecidableEq, Repr

/-- `Graph.add_node` (`graph.py` lines 118-148). -/
def Graph.add_node {V : Type} (g : Graph V) (n : Node V) : Except GraphErr (Graph V) :=
  if (lookupA g.nodes n.name).isSome then .error (.duplicateNode n.name)
  else .ok { g with nodes := g.nodes ++ [(n.name, n)] }

/-- `Graph.connect` (`graph.py` lines 150-182). -/
def Graph.connect {V : Type} (g : Graph V) (src dst : String) : Except GraphErr (Graph V) :=
  if (lookupA g.nodes src).isNone || (lookupA g.nodes dst).isNone then
    .error (.unknownEdgeNodes src dst)
  else .ok { g with edges := g.edges ++ [{ src := src, dst := dst }] }

/-- `Graph.set_entry` (`graph.py` lines 184-195). -/
def Graph.set_entry {V : Type} (g : Graph V) (name : String) : Except GraphErr (Graph V) :=
  if (lookupA g.nodes name).isNone then .error (.unknownEntry name)
  else .ok { g with entrypoint := some name }

/-- `Graph.successors` (`graph.py` lines 197-206): dst names of edges leaving
`node`, in edge insertion order. -/
def Graph.successors {V : Type} (g : Graph V) (node : String) : List String :=
  (g.edges.filter (fun e => e.src == node)).map (fun e => e.dst)

/-- `Graph.predecessors` (`graph.py` lines 208-217). -/
def Graph.predecessors {V : Type} (g : Graph V) (node : String) : List String :=
  (g.edges.filter (fun e => e.dst == node)).map (fun e => e.src)

/-- The edge loop of `Graph.validate` (`graph.py` lines 258-268): looks up both
endpoints and requires exact class identity of src output and dst input. -/
def Graph.checkEdges {V : Type} (g : Graph V) : List Edge → Except GraphErr Unit
  | [] => .ok ()
  | e :: rest =>
      match lookupA g.nodes e.src, lookupA g.nodes e.dst with
      | some srcNode, some dstNode =>
          if srcNode.output_model = dstNode.input_model then g.checkEdges rest
          else .error (.typeMismatch e.src e.dst srcNode.output_model dstNode.input_model)
      | _, _ => .error (.missingNode (e.src ++ "->" ++ e.dst))

/-- `Graph.validate` (`graph.py` lines 219-273).  The source guard
`if not self.entrypoint:` is Python truthiness: it fires when the entrypoint
is `None` and also when it is the empty string. -/
def Graph.validate {V : Type} (g : Graph V) : Except GraphErr Unit :=
  match g.entrypoint with
  | none => .error .noEntrypoint
  | some entry =>
      if entry = "" then .error .noEntrypoint
      else if (lookupA g.nodes entry).isNone then .error (.unknownEntry entry)
      else
        match g.checkEdges g.edges with
        | .error ge => .error ge
        | .ok _ => if g.nodes.length > 1000 then .error .tooLarge else .ok ()

/-- Every edge endpoint names a registered node.  Graphs built through
`add_node`/`connect` always satisfy this: `connect` rejects unknown
endpoints and nodes are never removed. -/
def Graph.edgesResolve {V : Type} (g : Graph V) : Bool :=
  g.edges.all (fun e => (lookupA g.nodes e.src).isSome && (lookupA g.nodes e.dst).isSome)

/-- One persisted checkpoint record.  The source stores
`state.model_dump_json()`; `RunState` round-trips losslessly through JSON
(spec section 6, exercised by the state tests), so the serialized payload is
modelled by the `RunState` value itself. -/
structure Checkpoint (V : Type) where
  run_id : String
  node : String
  state : RunState V
deriving DecidableEq, Repr

/-- Observable store of the persistence contract (`orca/persistence/base.py`,
behavior per the sqlite backend and spec section 6): run statuses, an
append-only checkpoint log ("latest" = highest insertion order per run id),
and the backend's own event log. -/
structure PStore (V : Type) where
  runs : List (String × String) := []
  checkpoints : List (Checkpoint V) := []
  events : List Event := []
deriving DecidableEq, Repr

/-- `create_run`: the backend records the run with status "running"
(sqlite backend line 73; the stored metadata is not read back by the engine
and is not modelled). -/
def PStore.create_run {V : Type} (s : PStore V) (rid : String) : PStore V :=
  { s with runs := updateA s.runs rid "running" }

/-- `update_run_status`. -/
def PStore.update_run_status {V : Type} (s : PStore V) (rid status : String) : PStore V :=
  { s with runs := updateA s.runs rid status }

/-- `save_checkpoint`: append-only. -/
def PStore.save_checkpoint {V : Type} (s : PStore V) (rid node : String)
    (st : RunState V) : PStore V :=
  { s with checkpoints := s.checkpoints ++ [{ run_id := rid, node := node, state := st }] }

/-- `load_latest_checkpoint`: the most recently saved checkpoint for the run
id, if any. -/
def PStore.load_latest_checkpoint {V : Type} (s : PStore V) (rid : String) :
    Option (String × RunState V) :=
  match (s.checkpoints.filter (fun c => c.run_id == rid)).getLast? with
  | none => none
  | some c => some (c.node, c.state)

/-- The runner's external environment: Pydantic validation/coercion
(`TypeAdapter.validate_python`; `none` models a raised
`pydantic.ValidationError`, `some v` the coerced model instance),
`model_dump`, and the failure behavior of the observability sinks: whether
`Persistence.add_event` raises on a given event, and, per registered listener
(`orca/observability/hooks.py` keeps a process-wide handler list), whether
that listener raises. -/
structure Env (V : Type) where
  validate : ModelTy → V → Option V
  dump : V → V
  addEventFails : Event → Bool := fun _ => false
  listenerFails : List (Event → Bool) := []

/-- Store effect of `Persistence.add_event` as called inside `_emit`: the
surrounding `try/except: pass` swallows a raised exception, leaving the store
unchanged. -/
def PStore.add_event {V : Type} (env : Env V) (s : PStore V) (e : Event) : PStore V :=
  if env.addEventFails e then s else { s with events := s.events ++ [e] }

/-- One delivery attempt made by `GraphRunner._emit`. -/
inductive Delivery where
  | toPersistence (e : Event)
  | toListener (i : Nat) (e : Event)
deriving DecidableEq, Repr

/-- The delivery attempts `_emit` makes for one event (`runner.py` lines
316-353): the persistence backend first (only when one is configured), then
every currently registered listener in registration order.  Exceptions from
either sink are swallowed, so every attempt is made regardless of earlier
failures. -/
def emitDeliveries {V : Type} (env : Env V) (hasPersistence : Bool) (e : Event) :
    List Delivery :=
  (if hasPersistence then [Delivery.toPersistence e] else [])
    ++ (List.range env.listenerFails.length).map (fun i => Delivery.toListener i e)

/-- Store effect of one `_emit` call. -/
def emitStore {V : Type} (env : Env V) (ps : Option (PStore V)) (e : Event) :
    Option (PStore V) :=
  ps.map (fun s => s.add_event env e)

/-- The error outcomes of `GraphRunner.run`: the graph `ValidationError`, the
two `RuntimeError`s (no checkpoint on resume; iteration cap), the
`pydantic.ValidationError` raised at the input or output validation point, an
arbitrary node exception propagated after `node_failed` (`nodeError` carries
its `repr`), and the `KeyError` a dangling successor name would raise
(unreachable through the API). -/
inductive RErr where
  | graphInvalid (e : GraphErr)
  | noCheckpoint (rid : String)
  | iterationCap
  | invalidInput (node : String)
  | invalidOutput (node : String)
  | nodeError (msg : String)
  | missingNode (name : String)
deriving DecidableEq, Repr

/-- Summary of a graph execution (`runner.py` `RunResult`). -/
structure RunResult (V : Type) where
  run_id : String
  status : String
  output : Option V
  state : RunState V
deriving DecidableEq, Repr

instance {ε α : Type} [DecidableEq ε] [DecidableEq α] : DecidableEq (Except ε α) :=
  fun x y =>
    match x, y with
    | .error a, .error b => decidable_of_iff (a = b) (by simp)
    | .ok a, .ok b => decidable_of_iff (a = b) (by simp)
    | .error _, .ok _ => isFalse (fun h => by cases h)
    | .ok _, .error _ => isFalse (fun h => by cases h)

/-- Full observable outcome of one `GraphRunner.run` invocation: the returned
`RunResult` or the propagated exception, the persistence store afterwards, and
the ordered list of events handed to `_emit`. -/
structure RunOut (V : Type) where
  result : Except RErr (RunResult V)
  store : Option (PStore V)
  emits : List Event
deriving DecidableEq, Repr

/-- One pass of the runner's while-loop (`runner.py` lines 255-314),
fuel-indexed.  The source keeps a counter: `steps += 1` then
`if steps > 10000: raise`; `remaining` here is `10000 - steps`, so the raise
fires exactly when `remaining` is zero with a node still pending.  `acc`
accumulates the events handed to `_emit`, in order. -/
def stepLoopAux {V : Type} (env : Env V) (g : Graph V) (rid : String) :
    Nat → Option String → V → RunState V → Option V → Option (PStore V) →
    List Event → RunOut V
  | _, none, _, st, lastOut, ps, acc =>
      let e : Event := { type := .run_finished, run_id := some rid }
      let ps1 := emitStore env ps e
      let ps2 := ps1.map (fun s => s.update_run_status rid "finished")
      { result := .ok { run_id := rid, status := "finished", output := lastOut, state := st },
        store := ps2, emits := acc ++ [e] }
  | 0, some _, _, _, _, ps, acc =>
      { result := .error .iterationCap, store := ps, emits := acc }
  | remaining + 1, some name, input, st, _lastOut, ps, acc =>
      match lookupA g.nodes name with
      | none => { result := .error (.missingNode name), store := ps, emits := acc }
      | some node =>
        match env.validate node.input_model input with
        | none => { result := .error (.invalidInput node.name), store := ps, emits := acc }
        | some v =>
          let eStart : Event := { type := .node_started, run_id := some rid, node := some node.name }
          let ps1 := emitStore env ps eStart
          let acc1 := acc ++ [eStart]
          match node.run v st with
          | .humanInput =>
              let eGate : Event :=
                { type := .human_gate_pending, run_id := some rid, node := some node.name }
              let ps2 := emitStore env ps1 eGate
              let st1 : RunState V :=
                { st with context := updateA st.context ("pending_input:" ++ node.name) (env.dump v) }
              let ps3 := ps2.map (fun s =>
                (s.save_checkpoint rid node.name st1).update_run_status rid "waiting")
              { result := .ok { run_id := rid, status := "waiting", output := none, state := st1 },
                store := ps3, emits := acc1 ++ [eGate] }
          | .err msg =>
              let eFail : Event :=
                { type := .node_failed, run_id := some rid, node := some node.name, data := some msg }
              let ps2 := emitStore env ps1 eFail
              let ps3 := ps2.map (fun s => s.update_run_status rid "failed")
              { result := .error (.nodeError msg), store := ps3, emits := acc1 ++ [eFail] }
          | .ok out =>
              match env.validate node.output_model out with
              | none => { result := .error (.invalidOutput node.name), store := ps1, emits := acc1 }
              | some outv =>
                let st1 : RunState V :=
                  { st with node_outputs := updateA st.node_outputs node.name (env.dump outv) }
                let eFin : Event :=
                  { type := .node_finished, run_id := some rid, node := some node.name }
                let ps2 := emitStore env ps1 eFin
                let acc2 := acc1 ++ [eFin]
                let after : Option (PStore V) × List Event :=
                  match ps2 with
                  | none => (none, acc2)
                  | some s =>
                      let eCk : Event :=
                        { type := .checkpoint_saved, run_id := some rid, node := some node.name }
                      (emitStore env (some (s.save_checkpoint rid node.name st1)) eCk,
                       acc2 ++ [eCk])
                match g.successors node.name with
                | [] =>
                    stepLoopAux env g rid remaining none outv st1 (some outv) after.1 after.2
                | nxt :: _ =>
                    stepLoopAux env g rid remaining (some nxt) outv st1 (some outv) after.1 after.2

/-- The fresh-run entry path of `GraphRunner.run` (`runner.py` lines 245-253).
`freshId` stands for the generated `uuid.uuid4()` string; `run_id or uuid4()`
replaces both `None` and the empty string. -/
def GraphRunner.freshPath {V : Type} (env : Env V) (ps : Option (PStore V)) (g : Graph V)
    (initial_input : V) (run_id : Option String) (freshId : String) : RunOut V :=
  let rid := match run_id with
    | none => freshId
    | some r => if r = "" then freshId else r
  let st : RunState V := { run_id := rid }
  let ps1 := ps.map (fun s => s.create_run rid)
  let e : Event := { type := .run_started, run_id := some rid }
  let ps2 := emitStore env ps1 e
  stepLoopAux env g rid 10000 g.entrypoint initial_input st none ps2 [e]

/-- The resume entry path of `GraphRunner.run` (`runner.py` lines 222-244),
entered after a checkpoint was loaded: restore the state, reuse its run id,
continue from the first successor of the checkpointed node, and select the
next input from the node's stored output, else the stashed pending input, else
the caller-supplied value. -/
def GraphRunner.resumePath {V : Type} (env : Env V) (store : PStore V) (g : Graph V)
    (initial_input : V) (lastNode : String) (savedState : RunState V) : RunOut V :=
  let rid := savedState.run_id
  let cur : Option String := match g.successors lastNode with
    | [] => none
    | nxt :: _ => some nxt
  let pendingKey := "pending_input:" ++ lastNode
  let currentInput :=
    match lookupA savedState.node_outputs lastNode with
    | some v => v
    | none =>
        match lookupA savedState.context pendingKey with
        | some v => v
        | none => initial_input
  let store1 := store.update_run_status rid "running"
  let e : Event := { type := .run_started, run_id := some rid }
  let ps1 := emitStore env (some store1) e
  stepLoopAux env g rid 10000 cur currentInput savedState none ps1 [e]

/-- `GraphRunner.run` (`runner.py` lines 124-314).  `ps` is the configured
persistence backend (`none` when the runner was built without one).  The
source guard `if resume_from_checkpoint and self.persistence:` is Python
truthiness: the resume path requires a non-empty resume id AND a configured
backend; otherwise the run starts fresh. -/
def GraphRunner.run {V : Type} (env : Env V) (ps : Option (PStore V)) (g : Graph V)
    (initial_input : V) (resume_from_checkpoint : Option String)
    (run_id : Option String) (freshId : String) : RunOut V :=
  match g.validate with
  | .error ge => { result := .error (.graphInvalid ge), store := ps, emits := [] }
  | .ok _ =>
      match resume_from_checkpoint, ps with
      | some cid, some store =>
          if cid = "" then GraphRunner.freshPath env ps g initial_input run_id freshId
          else
            match store.load_latest_checkpoint cid with
            | none => { result := .error (.noCheckpoint cid), store := ps, emits := [] }
            | some (lastNode, savedState) =>
                GraphRunner.resumePath env store g initial_input lastNode savedState
      | _, _ => GraphRunner.freshPath env ps g initial_input run_id freshId

/-! Spec-side definitions.  These follow the wording of the specification /
claims and are compared against the embedded source code above. -/

/-- Modelled from the spec wording for the resume input precedence (spec
section 4.3): (a) the checkpointed node's stored output in `node_outputs` if
present, else (b) the stashed `pending_input:<node>` value in `context` if
present, else (c) the caller-supplied value. -/
def specResumeInput {V : Type} (savedState : RunState V) (lastNode : String)
    (fallback : V) : V :=
  match lookupA savedState.node_outputs lastNode with
  | some v => v
  | none =>
      match lookupA savedState.context ("pending_input:" ++ lastNode) with
      | some v => v
      | none => fallback

/-- Modelled from the claim C5 wording: `validate()` is claimed to fail
exactly when no entrypoint is set, or the set entrypoint is not a registered
node, or some edge's src output class and dst input class differ, or the node
count exceeds 1000. -/
def specValidateFails {V : Type} (g : Graph V) : Bool :=
  (match g.entrypoint with
   | none => true
   | some e => (lookupA g.nodes e).isNone)
  || g.edges.any (fun ed =>
       match lookupA g.nodes ed.src, lookupA g.nodes ed.dst with
       | some s, some d => s.output_model != d.input_model
       | _, _ => false)
  || decide (g.nodes.length > 1000)

/-- The C5 condition amended with the Python-truthiness case the source
actually implements: an entrypoint set to the empty string also fails (the
source tests `if not self.entrypoint:`). -/
def specValidateFailsAmended {V : Type} (g : Graph V) : Bool :=
  (match g.entrypoint with
   | none => true
   | some e => (e == "") || (lookupA g.nodes e).isNone)
  || g.edges.any (fun ed =>
       match lookupA g.nodes ed.src, lookupA g.nodes ed.dst with
       | some s, some d => s.output_model != d.input_model
       | _, _ => false)
  || decide (g.nodes.length > 1000)

/-- Edges of a linear chain: one edge between each pair of consecutive
nodes. -/
def chainEdges {V : Type} : List (Node V) → List Edge
  | [] => []
  | [_] => []
  | a :: b :: t => { src := a.name, dst := b.name } :: chainEdges (b :: t)

/-- A single linear chain graph: the given nodes in order, consecutive edges,
entrypoint at the head.  This is exactly the graph `add_node`/`connect`/
`set_entry` build for a linear pipeline. -/
def mkChain {V : Type} (ns : List (Node V)) : Graph V :=
  { nodes := ns.map (fun n => (n.name, n)),
    edges := chainEdges ns,
    entrypoint := ns.head?.map (fun n => n.name) }

/-- Static edge-type compatibility along a chain: each node's output class is
identical to its successor's input class. -/
def chainTypesOk {V : Type} : List (Node V) → Bool
  | [] => true
  | [_] => true
  | a :: b :: t => (a.output_model == b.input_model) && chainTypesOk (b :: t)

/-- Reference evaluation of a chain: per node, coerce the input, run the node,
coerce the output, record its dump under the node's name — exactly the
per-step work of the runner loop.  Returns the final coerced output and final
state when every validation and every invocation succeeds. -/
def chainEval {V : Type} (env : Env V) :
    RunState V → V → List (Node V) → Option (V × RunState V)
  | st, input, [] => some (input, st)
  | st, input, n :: t =>
      match env.validate n.input_model input with
      | none => none
      | some v =>
          match n.run v st with
          | .ok out =>
              match env.validate n.output_model out with
              | none => none
              | some outv =>
                  chainEval env
                    { st with node_outputs := updateA st.node_outputs n.name (env.dump outv) }
                    outv t
          | _ => none

/-- Number of events of one type in an event list. -/
def countEv (es : List Event) (t : EvType) : Nat :=
  (es.filter (fun e => e.type == t)).length

/-- The per-node event block a successful persisted step produces, for a list
of node names. -/
def chainEmits (rid : String) : List String → List Event
  | [] => []
  | name :: t =>
      { type := .node_started, run_id := some rid, node := some name } ::
      { type := .node_finished, run_id := some rid, node := some name } ::
      { type := .checkpoint_saved, run_id := some rid, node := some name } ::
      chainEmits rid t

/-! Theorems settling the claims, with supporting lemmas and concrete
fixtures for witnesses. -/

/-- Identity environment over `Nat` values: every value validates against
every model class and coerces to itself; `model_dump` is the identity. -/
def envId : Env Nat := { validate := fun _ v => some v, dump := id }

/-- Fixture: a node adding one. -/
def nodeInc : Node Nat :=
  { name := "a", input_model := 0, output_model := 0, run := fun v _ => .ok (v + 1) }

/-- Fixture: a node doubling its input. -/
def nodeDbl : Node Nat :=
  { name := "b", input_model := 0, output_model := 0, run := fun v _ => .ok (v * 2) }

/-- Fixture: a human gate; always raises `HumanInputRequired`. -/
def nodeGate : Node Nat :=
  { name := "g", input_model := 0, output_model := 0, run := fun _ _ => .humanInput }

/-- Fixture: a node raising an ordinary error. -/
def nodeBoom : Node Nat :=
  { name := "c", input_model := 0, output_model := 0,
    run := fun _ _ => .err "RuntimeError(boom)" }

/-- Abbreviation: a node-scoped event as the runner constructs it. -/
def nodeEv (t : EvType) (rid name : String) : Event :=
  { type := t, run_id := some rid, node := some name }

/-- Abbreviation: a node-scoped event with an error payload. -/
def nodeEvErr (rid name msg : String) : Event :=
  { type := .node_failed, run_id := some rid, node := some name, data := some msg }

/-- Abbreviation: a run-scoped event as the runner constructs it. -/
def runEv (t : EvType) (rid : String) : Event :=
  { type := t, run_id := some rid }

/-- The state after stashing a paused node's pending input
(`runner.py` lines 274-277). -/
def stashPending {V : Type} (env : Env V) (st : RunState V) (name : String)
    (v : V) : RunState V :=
  { st with context := updateA st.context ("pending_input:" ++ name) (env.dump v) }

/-- C2: when the current node raises `HumanInputRequired` (at any point of any
run, `runner.py` lines 271-281, persistence configured), the step loop emits
`human_gate_pending` after `node_started`, stashes the coerced input's dump
under `context["pending_input:" ++ node.name]`, saves a checkpoint tagged with
the node's name holding the full updated state, sets the persisted status to
"waiting", and returns `RunResult` waiting with no output — the two listed
events are the only ones emitted, so no `run_finished` occurs on this path. -/
theorem C2_human_gate_pause {V : Type} (env : Env V) (g : Graph V) (rid : String)
    (remaining : Nat) (name : String) (node : Node V) (input v : V) (st : RunState V)
    (lastOut : Option V) (s : PStore V) (acc : List Event)
    (hrem : 1 ≤ remaining)
    (hlk : lookupA g.nodes name = some node)
    (hv : env.validate node.input_model input = some v)
    (hrun : node.run v st = .humanInput) :
    stepLoopAux env g rid remaining (some name) input st lastOut (some s) acc =
      { result := .ok
          { run_id := rid, status := "waiting", output := none,
            state := stashPending env st node.name v },
        store := some ((((s.add_event env (nodeEv .node_started rid node.name)).add_event
          env (nodeEv .human_gate_pending rid node.name)).save_checkpoint rid node.name
          (stashPending env st node.name v)).update_run_status rid "waiting"),
        emits := acc ++
          [nodeEv .node_started rid node.name,
           nodeEv .human_gate_pending rid node.name] } := by
  obtain ⟨r, rfl⟩ : ∃ r, remaining = r + 1 := ⟨remaining - 1, by omega⟩
  simp [stepLoopAux, hlk, hv, hrun, emitStore, stashPending, nodeEv]

/-- Witness for C2 at a concrete gate node. -/
theorem C2_human_gate_pause_witness :
    stepLoopAux envId (mkChain [nodeGate]) "r" 10000 (some "g") 5
        { run_id := "r" } none (some {}) [] =
      { result := .ok
          { run_id := "r", status := "waiting", output := none,
            state := { run_id := "r", context := [("pending_input:g", 5)] } },
        store := some
          { runs := [("r", "waiting")],
            checkpoints :=
              [{ run_id := "r", node := "g",
                 state := { run_id := "r", context := [("pending_input:g", 5)] } }],
            events :=
              [nodeEv .node_started "r" "g", nodeEv .human_gate_pending "r" "g"] },
        emits := [nodeEv .node_started "r" "g", nodeEv .human_gate_pending "r" "g"] } := by
  have h := C2_human_gate_pause envId (mkChain [nodeGate]) "r" 10000 "g" nodeGate 5 5
    { run_id := "r" } none {} [] (by decide) rfl rfl rfl
  rw [h]; rfl

/-- C6: when the current node raises an ordinary error (`runner.py` lines
282-288, persistence configured), the step loop emits `node_failed` carrying
the error's string representation, sets the persisted status to "failed", and
propagates the error; the only new events are `node_started` and
`node_failed` — no `node_finished`, no `checkpoint_saved` — and the
checkpoint log is unchanged (no checkpoint saved for the step). -/
theorem C6_node_failure {V : Type} (env : Env V) (g : Graph V) (rid : String)
    (remaining : Nat) (name : String) (node : Node V) (input v : V) (st : RunState V)
    (lastOut : Option V) (s : PStore V) (acc : List Event) (msg : String)
    (hrem : 1 ≤ remaining)
    (hlk : lookupA g.nodes name = some node)
    (hv : env.validate node.input_model input = some v)
    (hrun : node.run v st = .err msg) :
    stepLoopAux env g rid remaining (some name) input st lastOut (some s) acc =
      { result := .error (.nodeError msg),
        store := some (((s.add_event env (nodeEv .node_started rid node.name)).add_event
          env (nodeEvErr rid node.name msg)).update_run_status rid "failed"),
        emits := acc ++
          [nodeEv .node_started rid node.name, nodeEvErr rid node.name msg] } ∧
    (stepLoopAux env g rid remaining (some name) input st lastOut (some s) acc).store.map
        (fun x => x.checkpoints) = some s.checkpoints := by
  obtain ⟨r, rfl⟩ : ∃ r, remaining = r + 1 := ⟨remaining - 1, by omega⟩
  have h1 : stepLoopAux env g rid (r + 1) (some name) input st lastOut (some s) acc =
      { result := .error (.nodeError msg),
        store := some (((s.add_event env (nodeEv .node_started rid node.name)).add_event
          env (nodeEvErr rid node.name msg)).update_run_status rid "failed"),
        emits := acc ++
          [nodeEv .node_started rid node.name, nodeEvErr rid node.name msg] } := by
    simp [stepLoopAux, hlk, hv, hrun, emitStore, nodeEv, nodeEvErr]
  refine ⟨h1, ?_⟩
  rw [h1]
  simp [PStore.add_event, PStore.update_run_status]
  split <;> split <;> rfl

/-- Witness for C6 at a concrete failing node. -/
theorem C6_node_failure_witness :
    (stepLoopAux envId (mkChain [nodeBoom]) "r" 10000 (some "c") 5
        { run_id := "r" } none (some {}) []).result =
      .error (.nodeError "RuntimeError(boom)") ∧
    (stepLoopAux envId (mkChain [nodeBoom]) "r" 10000 (some "c") 5
        { run_id := "r" } none (some {}) []).store.map (fun x => x.checkpoints) =
      some [] := by
  have h := C6_node_failure envId (mkChain [nodeBoom]) "r" 10000 "c" nodeBoom 5 5
    { run_id := "r" } none {} [] "RuntimeError(boom)" (by decide) rfl rfl rfl
  exact ⟨by rw [h.1], h.2⟩

/-- Environment rejecting every value against model class 1 and accepting
(identity-coercing) everything else. -/
def envRejectOne : Env Nat :=
  { validate := fun ty v => if ty == 1 then none else some v, dump := id }

/-- Fixture: a node whose returned value never validates against its declared
output class. -/
def nodeBadOut : Node Nat :=
  { name := "x", input_model := 0, output_model := 1, run := fun v _ => .ok v }

/-- C7: when the node's returned value fails output validation (`runner.py`
line 291), the typed validation error propagates with `node_started` already
emitted but nothing else: no `node_finished`, no `checkpoint_saved`, no
checkpoint saved, no persisted status change, and the pre-step state (hence
its `node_outputs`) is not updated — the loop aborts before the
`node_outputs` assignment. -/
theorem C7_invalid_output {V : Type} (env : Env V) (g : Graph V) (rid : String)
    (remaining : Nat) (name : String) (node : Node V) (input v out : V) (st : RunState V)
    (lastOut : Option V) (s : PStore V) (acc : List Event)
    (hrem : 1 ≤ remaining)
    (hlk : lookupA g.nodes name = some node)
    (hv : env.validate node.input_model input = some v)
    (hrun : node.run v st = .ok out)
    (hbad : env.validate node.output_model out = none) :
    stepLoopAux env g rid remaining (some name) input st lastOut (some s) acc =
      { result := .error (.invalidOutput node.name),
        store := some (s.add_event env (nodeEv .node_started rid node.name)),
        emits := acc ++ [nodeEv .node_started rid node.name] } ∧
    (stepLoopAux env g rid remaining (some name) input st lastOut (some s) acc).store.map
        (fun x => x.runs) = some s.runs ∧
    (stepLoopAux env g rid remaining (some name) input st lastOut (some s) acc).store.map
        (fun x => x.checkpoints) = some s.checkpoints := by
  obtain ⟨r, rfl⟩ : ∃ r, remaining = r + 1 := ⟨remaining - 1, by omega⟩
  have h1 : stepLoopAux env g rid (r + 1) (some name) input st lastOut (some s) acc =
      { result := .error (.invalidOutput node.name),
        store := some (s.add_event env (nodeEv .node_started rid node.name)),
        emits := acc ++ [nodeEv .node_started rid node.name] } := by
    simp [stepLoopAux, hlk, hv, hrun, hbad, emitStore, nodeEv]
  refine ⟨h1, ?_, ?_⟩ <;> rw [h1] <;> simp [PStore.add_event] <;> split <;> rfl

/-- Witness for C7 at a concrete node with an invalid output. -/
theorem C7_invalid_output_witness :
    (stepLoopAux envRejectOne (mkChain [nodeBadOut]) "r" 10000 (some "x") 5
        { run_id := "r" } none (some {}) []).result = .error (.invalidOutput "x") ∧
    (stepLoopAux envRejectOne (mkChain [nodeBadOut]) "r" 10000 (some "x") 5
        { run_id := "r" } none (some {}) []).emits.map (fun e => e.type) =
      [.node_started] := by
  have h := C7_invalid_output envRejectOne (mkChain [nodeBadOut]) "r" 10000 "x" nodeBadOut
    5 5 5 { run_id := "r" } none {} [] (by decide) rfl rfl rfl rfl
  exact ⟨by rw [h.1]; rfl, by rw [h.1]; rfl⟩

/-- C4: a resume request (non-empty resume id, persistence configured — the
source requires both to enter the resume path, and "checkpoint on record"
presupposes a backend) for which the backend has no checkpoint fails with the
resume `RuntimeError` before any run activity: no event is emitted and the
store is untouched, so no run is started or continued. -/
theorem C4_resume_without_checkpoint {V : Type} (env : Env V) (s : PStore V) (g : Graph V)
    (input : V) (cid : String) (callerRid : Option String) (fid : String)
    (hcid : cid ≠ "")
    (hval : g.validate = .ok ())
    (hload : s.load_latest_checkpoint cid = none) :
    GraphRunner.run env (some s) g input (some cid) callerRid fid =
      { result := .error (.noCheckpoint cid), store := some s, emits := [] } := by
  simp [GraphRunner.run, hval, hload, hcid]

/-- Witness for C4: resuming an unknown run id on an empty store. -/
theorem C4_resume_without_checkpoint_witness :
    GraphRunner.run envId (some {}) (mkChain [nodeInc]) 5 (some "zz") none "f" =
      { result := .error (.noCheckpoint "zz"), store := some {}, emits := [] } :=
  C4_resume_without_checkpoint envId {} (mkChain [nodeInc]) 5 "zz" none "f"
    (by decide) rfl rfl

/-- C3: resuming from a run id whose latest checkpoint is tagged with node
`p` restores the checkpointed state, reuses the run id recorded in it, emits
a (second) `run_started` under that id, sets the persisted status to
"running", and continues the ordinary step loop from the first successor of
`p` in edge-insertion order (none if `p` has no successor) with the input
selected by the spec's precedence (stored output of `p`, else stashed
`pending_input:p`, else the caller-supplied value).  The caller-supplied run
id and the generated fresh id are ignored.  When `p` has no successor the run
ends immediately, finished with no output. -/
theorem C3_resume_continues {V : Type} (env : Env V) (s : PStore V) (g : Graph V)
    (input : V) (cid : String) (callerRid : Option String) (fid : String)
    (p : String) (savedSt : RunState V)
    (hcid : cid ≠ "")
    (hval : g.validate = .ok ())
    (hload : s.load_latest_checkpoint cid = some (p, savedSt)) :
    (GraphRunner.run env (some s) g input (some cid) callerRid fid =
      stepLoopAux env g savedSt.run_id 10000 (g.successors p).head?
        (specResumeInput savedSt p input) savedSt none
        (emitStore env (some (s.update_run_status savedSt.run_id "running"))
          (runEv .run_started savedSt.run_id))
        [runEv .run_started savedSt.run_id]) ∧
    (∀ rid2 fid2, GraphRunner.run env (some s) g input (some cid) rid2 fid2 =
        GraphRunner.run env (some s) g input (some cid) callerRid fid) ∧
    (g.successors p = [] →
      GraphRunner.run env (some s) g input (some cid) callerRid fid =
        { result := .ok
            { run_id := savedSt.run_id, status := "finished", output := none,
              state := savedSt },
          store := some ((((s.update_run_status savedSt.run_id "running").add_event env
            (runEv .run_started savedSt.run_id)).add_event env
            (runEv .run_finished savedSt.run_id)).update_run_status savedSt.run_id
            "finished"),
          emits := [runEv .run_started savedSt.run_id,
                    runEv .run_finished savedSt.run_id] }) := by
  have hrun : GraphRunner.run env (some s) g input (some cid) callerRid fid =
      GraphRunner.resumePath env s g input p savedSt := by
    simp [GraphRunner.run, hval, hload, hcid]
  refine ⟨?_, ?_, ?_⟩
  · rw [hrun]
    simp only [GraphRunner.resumePath, specResumeInput, runEv]
    cases g.successors p <;> rfl
  · intro rid2 fid2
    rw [hrun]
    simp [GraphRunner.run, hval, hload, hcid]
  · intro hsucc
    rw [hrun]
    simp [GraphRunner.resumePath, hsucc, stepLoopAux, emitStore, runEv]

/-- Witness for C3: a store holding a checkpoint tagged "a" with the stored
output of "a"; resuming continues at "b" and finishes with b's output,
ignoring the caller-supplied run id. -/
theorem C3_resume_continues_witness :
    (GraphRunner.run envId
        (some { runs := [("r1", "waiting")],
                checkpoints :=
                  [{ run_id := "r1", node := "a",
                     state := { run_id := "r1", node_outputs := [("a", 2)] } }] })
        (mkChain [nodeInc, nodeDbl]) 99 (some "r1") (some "OTHER") "f2").result =
      .ok
        { run_id := "r1", status := "finished", output := some 4,
          state := { run_id := "r1", node_outputs := [("a", 2), ("b", 4)] } } ∧
    (GraphRunner.run envId
        (some { runs := [("r1", "waiting")],
                checkpoints :=
                  [{ run_id := "r1", node := "a",
                     state := { run_id := "r1", node_outputs := [("a", 2)] } }] })
        (mkChain [nodeInc, nodeDbl]) 99 (some "r1") (some "OTHER") "f2").emits.map
        (fun e => e.type) =
      [.run_started, .node_started, .node_finished, .checkpoint_saved, .run_finished] := by
  have h := C3_resume_continues envId
    { runs := [("r1", "waiting")],
      checkpoints :=
        [{ run_id := "r1", node := "a",
           state := { run_id := "r1", node_outputs := [("a", 2)] } }] }
    (mkChain [nodeInc, nodeDbl]) 99 "r1" (some "OTHER") "f2" "a"
    { run_id := "r1", node_outputs := [("a", 2)] } (by decide) rfl rfl
  exact ⟨by rw [h.1]; rfl, by rw [h.1]; rfl⟩

/-- The edge loop of `validate` succeeds exactly when no edge relates a src
output class to a different dst input class (assuming all endpoints
resolve). -/
lemma checkEdges_ok_iff {V : Type} (g : Graph V) :
    ∀ l : List Edge,
      (∀ e ∈ l, (lookupA g.nodes e.src).isSome ∧ (lookupA g.nodes e.dst).isSome) →
      (g.checkEdges l = .ok () ↔
        l.any (fun ed =>
          match lookupA g.nodes ed.src, lookupA g.nodes ed.dst with
          | some sn, some dn => sn.output_model != dn.input_model
          | _, _ => false) = false) := by
  intro l
  induction l with
  | nil => intro _; simp [Graph.checkEdges]
  | cons e rest ih =>
      intro hwf
      have he := hwf e (List.mem_cons_self e rest)
      obtain ⟨sn, hsn⟩ := Option.isSome_iff_exists.mp he.1
      obtain ⟨dn, hdn⟩ := Option.isSome_iff_exists.mp he.2
      have ih2 := ih (fun x hx => hwf x (List.mem_cons_of_mem e hx))
      by_cases hty : sn.output_model = dn.input_model
      · simp [Graph.checkEdges, hsn, hdn, hty, ih2]
      · simp [Graph.checkEdges, hsn, hdn, hty]

/-- C5 (amended): over graphs whose edge endpoints resolve (as all graphs
built through the `add_node`/`connect` API do), `validate()` fails iff: no
entrypoint is set OR the entrypoint is the empty string (Python truthiness of
`if not self.entrypoint:`), or the entrypoint is unregistered, or some edge's
src output class is not identical to its dst input class, or the node count
exceeds 1000. -/
theorem C5_validate_iff_amended {V : Type} (g : Graph V) (hwf : g.edgesResolve = true) :
    g.validate ≠ .ok () ↔ specValidateFailsAmended g = true := by
  have hwf2 : ∀ e ∈ g.edges,
      (lookupA g.nodes e.src).isSome ∧ (lookupA g.nodes e.dst).isSome := by
    intro e he
    have h := List.all_eq_true.mp hwf e he
    simp at h
    exact ⟨h.1, h.2⟩
  have hedges := checkEdges_ok_iff g g.edges hwf2
  cases hent : g.entrypoint with
  | none => simp [Graph.validate, specValidateFailsAmended, hent]
  | some entry =>
      by_cases hemp : entry = ""
      · simp [Graph.validate, specValidateFailsAmended, hent, hemp]
      · by_cases hreg : (lookupA g.nodes entry).isNone
        · simp [Graph.validate, specValidateFailsAmended, hent, hemp, hreg]
        · cases hck : g.checkEdges g.edges with
          | error ge =>
              have hany : g.edges.any (fun ed =>
                  match lookupA g.nodes ed.src, lookupA g.nodes ed.dst with
                  | some sn, some dn => sn.output_model != dn.input_model
                  | _, _ => false) = true := by
                by_cases hb : g.edges.any (fun ed =>
                    match lookupA g.nodes ed.src, lookupA g.nodes ed.dst with
                    | some sn, some dn => sn.output_model != dn.input_model
                    | _, _ => false) = true
                · exact hb
                · have hf2 : g.edges.any (fun ed =>
                      match lookupA g.nodes ed.src, lookupA g.nodes ed.dst with
                      | some sn, some dn => sn.output_model != dn.input_model
                      | _, _ => false) = false := by simpa using hb
                  exact absurd (hedges.mpr hf2) (by simp [hck])
              simp [Graph.validate, specValidateFailsAmended, hent, hemp, hreg, hck, hany]
          | ok u =>
              have hany : g.edges.any (fun ed =>
                  match lookupA g.nodes ed.src, lookupA g.nodes ed.dst with
                  | some sn, some dn => sn.output_model != dn.input_model
                  | _, _ => false) = false := by
                cases u
                exact hedges.mp hck
              cases u
              by_cases hbig : g.nodes.length > 1000
              · simp [Graph.validate, specValidateFailsAmended, hent, hemp, hreg, hck,
                  hany, hbig]
              · simp [Graph.validate, specValidateFailsAmended, hent, hemp, hreg, hck,
                  hany, hbig]

/-- Witness for C5 (amended) on a concrete two-node graph with a type
mismatch: validate fails and the amended condition holds. -/
theorem C5_validate_iff_amended_witness :
    ((mkChain [nodeBadOut, nodeInc]).validate ≠ .ok () ↔
      specValidateFailsAmended (mkChain [nodeBadOut, nodeInc]) = true) ∧
    (mkChain [nodeBadOut, nodeInc]).validate =
      .error (.typeMismatch "x" "a" 1 0) ∧
    specValidateFailsAmended (mkChain [nodeBadOut, nodeInc]) = true :=
  ⟨C5_validate_iff_amended (mkChain [nodeBadOut, nodeInc]) rfl, rfl, rfl⟩

/-- Fixture for the C5 counterexample: a node whose name is the empty string
(nothing in the source forbids it: it is a legal dict key, `add_node` only
checks uniqueness, and `set_entry ""` succeeds because the node exists). -/
def nodeEmptyName : Node Nat :=
  { name := "", input_model := 0, output_model := 0, run := fun v _ => .ok v }

/-- The graph `add_node(nodeEmptyName); set_entry("")` builds. -/
def gEmptyEntry : Graph Nat :=
  { nodes := [("", nodeEmptyName)], edges := [], entrypoint := some "" }

/-- Counterexample to C5 as stated: `gEmptyEntry` has an entrypoint that is
set and registered, no edges, and one node, so the claimed failure condition
is false — yet `validate()` fails (with the no-entrypoint error), because the
source tests `if not self.entrypoint:` and the empty string is falsy. -/
theorem C5_counterexample :
    gEmptyEntry.validate = .error .noEntrypoint ∧
    specValidateFails gEmptyEntry = false ∧
    gEmptyEntry.edgesResolve = true :=
  ⟨rfl, rfl, rfl⟩

/-- The step loop never appends to the state's `events` field: every state
update in `runner.py` touches only `context` (pending-input stash) or
`node_outputs`; `_emit` writes to persistence and listeners only.  So the
final state carries exactly the `events` the initial state had. -/
lemma stepLoop_state_events {V : Type} (env : Env V) (g : Graph V) (rid : String) :
    ∀ (remaining : Nat) (cur : Option String) (input : V) (st : RunState V)
      (lastOut : Option V) (ps : Option (PStore V)) (acc : List Event) (r : RunResult V),
      (stepLoopAux env g rid remaining cur input st lastOut ps acc).result = .ok r →
      r.state.events = st.events := by
  intro remaining
  induction remaining with
  | zero =>
      intro cur input st lastOut ps acc r h
      cases cur with
      | none =>
          simp [stepLoopAux] at h
          rw [← h]
      | some name => simp [stepLoopAux] at h
  | succ n ih =>
      intro cur input st lastOut ps acc r h
      cases cur with
      | none =>
          simp [stepLoopAux] at h
          rw [← h]
      | some name =>
          simp only [stepLoopAux] at h
          cases hlk : lookupA g.nodes name with
          | none => simp only [hlk] at h; simp at h
          | some node =>
              simp only [hlk] at h
              cases hv : env.validate node.input_model input with
              | none => simp only [hv] at h; simp at h
              | some v =>
                  simp only [hv] at h
                  cases hr : node.run v st with
                  | humanInput =>
                      simp only [hr] at h
                      simp at h
                      rw [← h]
                  | err msg => simp only [hr] at h; simp at h
                  | ok out =>
                      simp only [hr] at h
                      cases hvo : env.validate node.output_model out with
                      | none => simp only [hvo] at h; simp at h
                      | some outv =>
                          simp only [hvo] at h
                          cases hsucc : g.successors node.name with
                          | nil =>
                              simp only [hsucc] at h
                              simp at h
                              subst h
                              rfl
                          | cons nxt rest =>
                              simp only [hsucc] at h
                              have h2 := ih _ _ _ _ _ _ _ h
                              exact h2

/-- A fresh run that returns normally (finished or waiting) always returns a
state whose `events` list is empty: the runner never appends the events it
emits to `RunState.events`. -/
lemma run_fresh_state_events {V : Type} (env : Env V) (ps : Option (PStore V))
    (g : Graph V) (input : V) (ridOpt : Option String) (fid : String) (r : RunResult V)
    (h : (GraphRunner.run env ps g input none ridOpt fid).result = .ok r) :
    r.state.events = [] := by
  revert h
  unfold GraphRunner.run
  cases g.validate with
  | error ge => intro h; simp at h
  | ok u =>
      cases u
      cases ps with
      | none =>
          intro h
          exact stepLoop_state_events env g _ _ _ _ _ _ _ _ _ h
      | some s =>
          intro h
          exact stepLoop_state_events env g _ _ _ _ _ _ _ _ _ h

/-- C9 (code divergence): the spec says every emitted event is also appended
as a local copy to `RunState.events`, and `RunState`'s own docstring calls the
field the "Event log collected during the run" — but `GraphRunner._emit`
(`runner.py` lines 316-353) never touches the `RunState`; no code path
appends to `state.events`.  Concretely, this fresh one-node run emits four
events (`run_started`, `node_started`, `node_finished`, `run_finished`) while
the returned final state has `events = []`. -/
theorem C9_events_not_appended :
    (GraphRunner.run envId none (mkChain [nodeInc]) 5 none none "r").result =
      .ok
        { run_id := "r", status := "finished", output := some 6,
          state := { run_id := "r", events := [], node_outputs := [("a", 6)] } } ∧
    (GraphRunner.run envId none (mkChain [nodeInc]) 5 none none "r").emits.map
        (fun e => e.type) =
      [.run_started, .node_started, .node_finished, .run_finished] :=
  ⟨rfl, rfl⟩

/-- Counting events distributes over append. -/
lemma countEv_append (a b : List Event) (t : EvType) :
    countEv (a ++ b) t = countEv a t + countEv b t := by
  simp [countEv, List.filter_append]

/-- The step loop with `remaining` fuel emits at most `remaining` further
`node_started` events, and exactly that many when it ends by exhausting the
iteration cap (each completed iteration emits exactly one `node_started`). -/
lemma stepLoop_node_started_bound {V : Type} (env : Env V) (g : Graph V) (rid : String) :
    ∀ (remaining : Nat) (cur : Option String) (input : V) (st : RunState V)
      (lastOut : Option V) (ps : Option (PStore V)) (acc : List Event),
      countEv (stepLoopAux env g rid remaining cur input st lastOut ps acc).emits
          .node_started ≤ countEv acc .node_started + remaining ∧
      ((stepLoopAux env g rid remaining cur input st lastOut ps acc).result =
          .error .iterationCap →
        countEv (stepLoopAux env g rid remaining cur input st lastOut ps acc).emits
            .node_started = countEv acc .node_started + remaining) := by
  intro remaining
  induction remaining with
  | zero =>
      intro cur input st lastOut ps acc
      cases cur with
      | none =>
          constructor
          · simp [stepLoopAux, countEv_append, countEv]
          · intro h; simp [stepLoopAux] at h
      | some name =>
          constructor
          · simp [stepLoopAux]
          · intro _; simp [stepLoopAux]
  | succ n ih =>
      intro cur input st lastOut ps acc
      cases cur with
      | none =>
          constructor
          · simp [stepLoopAux, countEv_append, countEv]
          · intro h; simp [stepLoopAux] at h
      | some name =>
          cases hlk : lookupA g.nodes name with
          | none =>
              constructor
              · simp [stepLoopAux, hlk]
              · intro h; simp [stepLoopAux, hlk] at h
          | some node =>
              cases hv : env.validate node.input_model input with
              | none =>
                  constructor
                  · simp [stepLoopAux, hlk, hv]
                  · intro h; simp [stepLoopAux, hlk, hv] at h
              | some v =>
                  cases hr : node.run v st with
                  | humanInput =>
                      constructor
                      · simp [stepLoopAux, hlk, hv, hr, countEv_append, countEv]
                      · intro h; simp [stepLoopAux, hlk, hv, hr] at h
                  | err msg =>
                      constructor
                      · simp [stepLoopAux, hlk, hv, hr, countEv_append, countEv]
                      · intro h; simp [stepLoopAux, hlk, hv, hr] at h
                  | ok out =>
                      cases hvo : env.validate node.output_model out with
                      | none =>
                          constructor
                          · simp [stepLoopAux, hlk, hv, hr, hvo, countEv_append, countEv]
                          · intro h; simp [stepLoopAux, hlk, hv, hr, hvo] at h
                      | some outv =>
                          cases hsucc : g.successors node.name with
                          | nil =>
                              cases ps with
                              | none =>
                                  constructor
                                  · simp only [stepLoopAux, hlk, hv, hr, hvo, hsucc,
                                      emitStore, Option.map]
                                    simp [countEv_append, countEv]
                                  · intro h
                                    simp only [stepLoopAux, hlk, hv, hr, hvo, hsucc,
                                      emitStore, Option.map] at h
                                    simp at h
                              | some s0 =>
                                  constructor
                                  · simp only [stepLoopAux, hlk, hv, hr, hvo, hsucc,
                                      emitStore, Option.map]
                                    simp [countEv_append, countEv]
                                  · intro h
                                    simp only [stepLoopAux, hlk, hv, hr, hvo, hsucc,
                                      emitStore, Option.map] at h
                                    simp at h
                          | cons nxt rest =>
                              have key : ∀ (ps2 : Option (PStore V)) (acc2 : List Event),
                                  countEv acc2 .node_started = countEv acc .node_started + 1 →
                                  countEv (stepLoopAux env g rid n (some nxt) outv { st with node_outputs := updateA st.node_outputs node.name (env.dump outv) } (some outv) ps2 acc2).emits .node_started ≤ countEv acc .node_started + (n + 1) ∧
                                  ((stepLoopAux env g rid n (some nxt) outv { st with node_outputs := updateA st.node_outputs node.name (env.dump outv) } (some outv) ps2 acc2).result = .error .iterationCap →
                                    countEv (stepLoopAux env g rid n (some nxt) outv { st with node_outputs := updateA st.node_outputs node.name (env.dump outv) } (some outv) ps2 acc2).emits .node_started = countEv acc .node_started + (n + 1)) := by
                                intro ps2 acc2 hacc
                                have hb := ih (some nxt) outv { st with node_outputs := updateA st.node_outputs node.name (env.dump outv) } (some outv) ps2 acc2
                                rw [hacc] at hb
                                exact ⟨by omega, fun hcap => by have := hb.2 hcap; omega⟩
                              cases ps with
                              | none =>
                                  refine ⟨?_, ?_⟩
                                  · simp only [stepLoopAux, hlk, hv, hr, hvo, hsucc,
                                      emitStore, Option.map]
                                    exact (key _ _ (by simp [countEv_append, countEv])).1
                                  · simp only [stepLoopAux, hlk, hv, hr, hvo, hsucc,
                                      emitStore, Option.map]
                                    exact (key _ _ (by simp [countEv_append, countEv])).2
                              | some s0 =>
                                  refine ⟨?_, ?_⟩
                                  · simp only [stepLoopAux, hlk, hv, hr, hvo, hsucc,
                                      emitStore, Option.map]
                                    exact (key _ _ (by simp [countEv_append, countEv])).1
                                  · simp only [stepLoopAux, hlk, hv, hr, hvo, hsucc,
                                      emitStore, Option.map]
                                    exact (key _ _ (by simp [countEv_append, countEv])).2

/-- Any step loop started with fuel 10000 and a single `run_started` event in
the log emits at most 10000 `node_started` events, exactly 10000 on the
iteration-cap error. -/
lemma stepLoop_from_start {V : Type} (env : Env V) (g : Graph V) (rid : String)
    (cur : Option String) (input : V) (st : RunState V) (ps : Option (PStore V)) :
    countEv (stepLoopAux env g rid 10000 cur input st none ps
        [runEv .run_started rid]).emits .node_started ≤ 10000 ∧
    ((stepLoopAux env g rid 10000 cur input st none ps
        [runEv .run_started rid]).result = .error .iterationCap →
      countEv (stepLoopAux env g rid 10000 cur input st none ps
          [runEv .run_started rid]).emits .node_started = 10000) := by
  have hb := stepLoop_node_started_bound env g rid 10000 cur input st none ps
    [runEv .run_started rid]
  have h0 : countEv [runEv .run_started rid] .node_started = 0 := by
    simp [countEv, runEv]
  rw [h0] at hb
  simpa using hb

/-- C8: every `GraphRunner.run` invocation executes at most 10000 node steps:
at most 10000 `node_started` events are emitted, and when the run fails with
the iteration-cap `RuntimeError` exactly 10000 steps had run (the 10001st step
raises before invoking another node, `runner.py` lines 257-261).  The loop is
total: it always ends in a returned result or a propagated error. -/
theorem C8_iteration_cap {V : Type} (env : Env V) (ps : Option (PStore V)) (g : Graph V)
    (input : V) (resume ridOpt : Option String) (fid : String) :
    countEv (GraphRunner.run env ps g input resume ridOpt fid).emits .node_started
        ≤ 10000 ∧
    ((GraphRunner.run env ps g input resume ridOpt fid).result = .error .iterationCap →
      countEv (GraphRunner.run env ps g input resume ridOpt fid).emits .node_started
          = 10000) := by
  unfold GraphRunner.run
  cases hval : g.validate with
  | error ge =>
      constructor
      · simp [countEv]
      · intro h; simp at h
  | ok u =>
      cases u
      have hfresh :
          countEv (GraphRunner.freshPath env ps g input ridOpt fid).emits .node_started
              ≤ 10000 ∧
          ((GraphRunner.freshPath env ps g input ridOpt fid).result =
              .error .iterationCap →
            countEv (GraphRunner.freshPath env ps g input ridOpt fid).emits
                .node_started = 10000) := by
        unfold GraphRunner.freshPath
        exact stepLoop_from_start env g _ g.entrypoint input _ _
      cases resume with
      | none => simpa using hfresh
      | some cid =>
          cases ps with
          | none => simpa using hfresh
          | some store =>
              by_cases hc : cid = ""
              · simpa [hc] using hfresh
              · simp only [if_neg hc]
                cases hload : store.load_latest_checkpoint cid with
                | none =>
                    constructor
                    · simp [countEv]
                    · intro h; simp at h
                | some pr =>
                    obtain ⟨p, savedSt⟩ := pr
                    have hres :
                        countEv (GraphRunner.resumePath env store g input p
                            savedSt).emits .node_started ≤ 10000 ∧
                        ((GraphRunner.resumePath env store g input p savedSt).result =
                            .error .iterationCap →
                          countEv (GraphRunner.resumePath env store g input p
                              savedSt).emits .node_started = 10000) := by
                      unfold GraphRunner.resumePath
                      exact stepLoop_from_start env g _ _ _ _ _
                    simpa using hres

/-- `_emit` never changes whether a backend is configured. -/
lemma emitStore_isSome {V : Type} (env : Env V) (ps : Option (PStore V)) (e : Event) :
    (emitStore env ps e).isSome = ps.isSome := by
  cases ps <;> rfl

/-- The run's control flow is independent of observability failures: two
environments agreeing on validation and dumping (but differing arbitrarily in
whether `add_event` raises and in which listeners are registered or raise)
drive the step loop to the same result and the same emitted events, given
stores that agree on being configured. -/
lemma stepLoop_env_agnostic {V : Type} (env1 env2 : Env V)
    (hv : env2.validate = env1.validate) (hd : env2.dump = env1.dump)
    (g : Graph V) (rid : String) :
    ∀ (remaining : Nat) (cur : Option String) (input : V) (st : RunState V)
      (lastOut : Option V) (ps1 ps2 : Option (PStore V)) (acc : List Event),
      ps1.isSome = ps2.isSome →
      (stepLoopAux env2 g rid remaining cur input st lastOut ps2 acc).result =
        (stepLoopAux env1 g rid remaining cur input st lastOut ps1 acc).result ∧
      (stepLoopAux env2 g rid remaining cur input st lastOut ps2 acc).emits =
        (stepLoopAux env1 g rid remaining cur input st lastOut ps1 acc).emits := by
  intro remaining
  induction remaining with
  | zero =>
      intro cur input st lastOut ps1 ps2 acc hps
      cases cur with
      | none => exact ⟨rfl, rfl⟩
      | some name => exact ⟨rfl, rfl⟩
  | succ n ih =>
      intro cur input st lastOut ps1 ps2 acc hps
      cases cur with
      | none => exact ⟨rfl, rfl⟩
      | some name =>
          cases hlk : lookupA g.nodes name with
          | none => constructor <;> simp [stepLoopAux, hlk]
          | some node =>
              cases hvv : env1.validate node.input_model input with
              | none => constructor <;> simp [stepLoopAux, hlk, hv, hvv]
              | some v =>
                  cases hr : node.run v st with
                  | humanInput =>
                      constructor <;> simp [stepLoopAux, hlk, hv, hd, hvv, hr]
                  | err msg =>
                      constructor <;> simp [stepLoopAux, hlk, hv, hd, hvv, hr]
                  | ok out =>
                      cases hvo : env1.validate node.output_model out with
                      | none =>
                          constructor <;> simp [stepLoopAux, hlk, hv, hd, hvv, hr, hvo]
                      | some outv =>
                          cases hsucc : g.successors node.name with
                          | nil =>
                              cases ps1 with
                              | none =>
                                  cases ps2 with
                                  | none =>
                                      constructor <;>
                                        simp [stepLoopAux, hlk, hv, hd, hvv, hr, hvo,
                                          hsucc, emitStore]
                                  | some s2 => simp at hps
                              | some s1 =>
                                  cases ps2 with
                                  | none => simp at hps
                                  | some s2 =>
                                      constructor <;>
                                        simp [stepLoopAux, hlk, hv, hd, hvv, hr, hvo,
                                          hsucc, emitStore]
                          | cons nxt rest =>
                              cases ps1 with
                              | none =>
                                  cases ps2 with
                                  | none =>
                                      constructor
                                      · simp only [stepLoopAux, hlk, hv, hd, hvv, hr,
                                          hvo, hsucc, emitStore, Option.map]
                                        exact (ih (some nxt) outv { st with node_outputs := updateA st.node_outputs node.name (env1.dump outv) }
                                          (some outv) none none _ rfl).1
                                      · simp only [stepLoopAux, hlk, hv, hd, hvv, hr,
                                          hvo, hsucc, emitStore, Option.map]
                                        exact (ih (some nxt) outv { st with node_outputs := updateA st.node_outputs node.name (env1.dump outv) }
                                          (some outv) none none _ rfl).2
                                  | some s2 => simp at hps
                              | some s1 =>
                                  cases ps2 with
                                  | none => simp at hps
                                  | some s2 =>
                                      constructor
                                      · simp only [stepLoopAux, hlk, hv, hd, hvv, hr,
                                          hvo, hsucc, emitStore, Option.map]
                                        exact (ih (some nxt) outv { st with node_outputs := updateA st.node_outputs node.name (env1.dump outv) }
                                          (some outv) (some _) (some _) _ (by simp)).1
                                      · simp only [stepLoopAux, hlk, hv, hd, hvv, hr,
                                          hvo, hsucc, emitStore, Option.map]
                                        exact (ih (some nxt) outv { st with node_outputs := updateA st.node_outputs node.name (env1.dump outv) }
                                          (some outv) (some _) (some _) _ (by simp)).2

/-- Run-level corollary: the result and the emitted-event sequence of
`GraphRunner.run` do not depend on the failure behavior of the persistence
event sink or of any listener. -/
lemma run_env_agnostic {V : Type} (env1 env2 : Env V)
    (hv : env2.validate = env1.validate) (hd : env2.dump = env1.dump)
    (ps : Option (PStore V)) (g : Graph V) (input : V)
    (resume ridOpt : Option String) (fid : String) :
    (GraphRunner.run env2 ps g input resume ridOpt fid).result =
      (GraphRunner.run env1 ps g input resume ridOpt fid).result ∧
    (GraphRunner.run env2 ps g input resume ridOpt fid).emits =
      (GraphRunner.run env1 ps g input resume ridOpt fid).emits := by
  have hfresh :
      (GraphRunner.freshPath env2 ps g input ridOpt fid).result =
        (GraphRunner.freshPath env1 ps g input ridOpt fid).result ∧
      (GraphRunner.freshPath env2 ps g input ridOpt fid).emits =
        (GraphRunner.freshPath env1 ps g input ridOpt fid).emits := by
    unfold GraphRunner.freshPath
    exact stepLoop_env_agnostic env1 env2 hv hd g _ _ _ _ _ _ _ _ _
      (by rw [emitStore_isSome, emitStore_isSome])
  unfold GraphRunner.run
  cases hval : g.validate with
  | error ge => exact ⟨rfl, rfl⟩
  | ok u =>
      cases u
      cases resume with
      | none => simpa using hfresh
      | some cid =>
          cases ps with
          | none => simpa using hfresh
          | some store =>
              by_cases hc : cid = ""
              · simpa [hc] using hfresh
              · simp only [if_neg hc]
                cases hload : store.load_latest_checkpoint cid with
                | none => exact ⟨rfl, rfl⟩
                | some pr =>
                    obtain ⟨p, savedSt⟩ := pr
                    have hres :
                        (GraphRunner.resumePath env2 store g input p savedSt).result =
                          (GraphRunner.resumePath env1 store g input p savedSt).result ∧
                        (GraphRunner.resumePath env2 store g input p savedSt).emits =
                          (GraphRunner.resumePath env1 store g input p savedSt).emits := by
                      unfold GraphRunner.resumePath
                      exact stepLoop_env_agnostic env1 env2 hv hd g _ _ _ _ _ _ _ _ _
                        (by rw [emitStore_isSome, emitStore_isSome])
                    simpa using hres

/-- C10: `_emit` (`runner.py` lines 316-353) attempts delivery to the
persistence backend first, then to every currently registered listener in
registration order; exceptions raised by `add_event` or by individual
listeners are swallowed, so every listener is still attempted and — as the
last two conjuncts state — the run's control flow, returned result, and
emitted event sequence are unaffected by any such failures (environments
differing only in failure behavior produce identical results). -/
theorem C10_emission_resilience {V : Type} (env env2 : Env V)
    (hv : env2.validate = env.validate) (hd : env2.dump = env.dump)
    (ps : Option (PStore V)) (g : Graph V) (input : V)
    (resume ridOpt : Option String) (fid : String) (e : Event) (hasP : Bool) :
    (emitDeliveries env true e =
      Delivery.toPersistence e ::
        (List.range env.listenerFails.length).map (fun i => Delivery.toListener i e)) ∧
    (∀ i, i < env.listenerFails.length →
      Delivery.toListener i e ∈ emitDeliveries env hasP e) ∧
    (GraphRunner.run env2 ps g input resume ridOpt fid).result =
      (GraphRunner.run env ps g input resume ridOpt fid).result ∧
    (GraphRunner.run env2 ps g input resume ridOpt fid).emits =
      (GraphRunner.run env ps g input resume ridOpt fid).emits := by
  refine ⟨by simp [emitDeliveries], ?_, ?_, ?_⟩
  · intro i hi
    cases hasP <;> simp [emitDeliveries] <;> exact hi
  · exact (run_env_agnostic env env2 hv hd ps g input resume ridOpt fid).1
  · exact (run_env_agnostic env env2 hv hd ps g input resume ridOpt fid).2

/-- Fixture: an environment whose persistence event sink always raises and
whose two registered listeners include one that always raises. -/
def envFaulty : Env Nat :=
  { validate := fun _ v => some v, dump := id,
    addEventFails := fun _ => true,
    listenerFails := [fun _ => true, fun _ => false] }

/-- Witness for C10: with the always-failing sinks, deliveries still reach
persistence first and then both listeners, and a concrete two-node run has the
same result and event sequence as under the never-failing environment. -/
theorem C10_emission_resilience_witness :
    emitDeliveries envFaulty true (runEv .run_started "r") =
      [Delivery.toPersistence (runEv .run_started "r"),
       Delivery.toListener 0 (runEv .run_started "r"),
       Delivery.toListener 1 (runEv .run_started "r")] ∧
    Delivery.toListener 1 (runEv .run_started "r") ∈
      emitDeliveries envFaulty true (runEv .run_started "r") ∧
    (GraphRunner.run envId (some {}) (mkChain [nodeInc, nodeDbl]) 1 none none "f").result =
      (GraphRunner.run envFaulty (some {}) (mkChain [nodeInc, nodeDbl]) 1 none none
        "f").result ∧
    (GraphRunner.run envId (some {}) (mkChain [nodeInc, nodeDbl]) 1 none none "f").emits =
      (GraphRunner.run envFaulty (some {}) (mkChain [nodeInc, nodeDbl]) 1 none none
        "f").emits := by
  have h := C10_emission_resilience envFaulty envId rfl rfl (some {})
    (mkChain [nodeInc, nodeDbl]) 1 none none "f" (runEv .run_started "r") true
  exact ⟨by rw [h.1]; rfl, h.2.1 1 (by decide), h.2.2.1, h.2.2.2⟩

/-- Lookup in the node mapping a list of uniquely named nodes builds. -/
lemma lookupA_map_of_mem {V : Type} :
    ∀ (ns : List (Node V)) (n : Node V), n ∈ ns → (ns.map Node.name).Nodup →
      lookupA (ns.map (fun m => (m.name, m))) n.name = some n := by
  intro ns
  induction ns with
  | nil => intro n h _; simp at h
  | cons hd tl ih =>
      intro n hmem hnd
      rw [List.map_cons, List.nodup_cons] at hnd
      rcases List.mem_cons.mp hmem with h1 | h2
      · subst h1
        simp [lookupA]
      · have hne : hd.name ≠ n.name := by
          intro hcontra
          exact hnd.1 (hcontra ▸ List.mem_map_of_mem Node.name h2)
        simp only [List.map_cons, lookupA, if_neg hne]
        exact ih n h2 hnd.2

/-- Every edge of a chain has its src among the chain's node names. -/
lemma chainEdges_src_mem {V : Type} :
    ∀ (l : List (Node V)) (e : Edge), e ∈ chainEdges l → e.src ∈ l.map Node.name := by
  intro l
  induction l with
  | nil => intro e h; simp [chainEdges] at h
  | cons a tl ih =>
      intro e h
      cases tl with
      | nil => simp [chainEdges] at h
      | cons b tl2 =>
          simp only [chainEdges] at h
          rcases List.mem_cons.mp h with h1 | h2
          · subst h1; simp
          · simp only [List.map_cons]
            exact List.mem_cons_of_mem _ (ih e h2)

/-- Chain edges leaving a name absent from the chain: none. -/
lemma chainEdges_filter_notmem {V : Type} (l : List (Node V)) (x : String)
    (hx : x ∉ l.map Node.name) :
    (chainEdges l).filter (fun e => e.src == x) = [] := by
  rw [List.filter_eq_nil_iff]
  intro e he hpe
  have hsrc : e.src = x := by simpa using hpe
  exact hx (hsrc ▸ chainEdges_src_mem l e he)

/-- In a chain of uniquely named nodes, the edges leaving node `n` (placed
with `t` behind it) go exactly to the head of `t`. -/
lemma chainEdges_filter_at {V : Type} :
    ∀ (pre : List (Node V)) (n : Node V) (t : List (Node V)),
      ((pre ++ n :: t).map Node.name).Nodup →
      (chainEdges (pre ++ n :: t)).filter (fun e => e.src == n.name) =
        (match t with
         | [] => []
         | m :: _ => [{ src := n.name, dst := m.name }]) := by
  intro pre
  induction pre with
  | nil =>
      intro n t hnd
      cases t with
      | nil => simp [chainEdges]
      | cons m t2 =>
          simp only [List.nil_append, chainEdges]
          have hnotin : n.name ∉ (m :: t2).map Node.name := by
            simp only [List.nil_append, List.map_cons, List.nodup_cons] at hnd
            exact hnd.1
          rw [List.filter_cons, if_pos (by simp)]
          rw [chainEdges_filter_notmem (m :: t2) n.name hnotin]
  | cons p pre2 ih =>
      intro n t hnd
      have hnd1 : (p.name :: (pre2 ++ n :: t).map Node.name).Nodup := by
        simpa using hnd
      have hne : p.name ≠ n.name := by
        intro hcontra
        have hmem2 : n.name ∈ (pre2 ++ n :: t).map Node.name := by
          simp
        exact (List.nodup_cons.mp hnd1).1 (hcontra ▸ hmem2)
      have hnd2 : ((pre2 ++ n :: t).map Node.name).Nodup :=
        (List.nodup_cons.mp hnd1).2
      cases hL : pre2 ++ n :: t with
      | nil => exact absurd hL (by simp)
      | cons l0 ls =>
          have : chainEdges (p :: pre2 ++ n :: t) =
              { src := p.name, dst := l0.name } :: chainEdges (pre2 ++ n :: t) := by
            rw [List.cons_append, hL]
            rfl
          have hpe : ¬((({ src := p.name, dst := l0.name } : Edge).src == n.name) = true) := by
            simp [hne]
          rw [this, List.filter_cons, if_neg hpe]
          exact ih n t hnd2

/-- Successors of a chain node: the next node's name, if any. -/
lemma mkChain_successors {V : Type} (pre : List (Node V)) (n : Node V)
    (t : List (Node V)) (hnd : ((pre ++ n :: t).map Node.name).Nodup) :
    (mkChain (pre ++ n :: t)).successors n.name =
      (match t with
       | [] => []
       | m :: _ => [m.name]) := by
  unfold Graph.successors mkChain
  simp only
  rw [chainEdges_filter_at pre n t hnd]
  cases t <;> rfl

/-- The edge loop of `validate` accepts every chain of type-compatible nodes
drawn from the (uniquely named) node list of the graph. -/
lemma chain_checkEdges_ok {V : Type} (all : List (Node V))
    (hnd : (all.map Node.name).Nodup) :
    ∀ l : List (Node V), (∀ x ∈ l, x ∈ all) → chainTypesOk l = true →
      (mkChain all).checkEdges (chainEdges l) = .ok () := by
  intro l
  induction l with
  | nil => intro _ _; simp [chainEdges, Graph.checkEdges]
  | cons a tl ih =>
      intro hsub hty
      cases tl with
      | nil => simp [chainEdges, Graph.checkEdges]
      | cons b tl2 =>
          have hla : lookupA (mkChain all).nodes a.name = some a :=
            lookupA_map_of_mem all a (hsub a (by simp)) hnd
          have hlb : lookupA (mkChain all).nodes b.name = some b :=
            lookupA_map_of_mem all b (hsub b (by simp)) hnd
          simp only [chainTypesOk, Bool.and_eq_true, beq_iff_eq] at hty
          simp only [chainEdges, Graph.checkEdges, hla, hlb, if_pos hty.1]
          exact ih (fun x hx => hsub x (List.mem_cons_of_mem a hx)) hty.2

/-- A nonempty chain of at most 1000 uniquely and nonemptily named,
type-compatible nodes passes `Graph.validate`. -/
lemma mkChain_validate_ok {V : Type} (ns : List (Node V)) (hne : ns ≠ [])
    (hname : ∀ n ∈ ns, n.name ≠ "") (hnd : (ns.map Node.name).Nodup)
    (hty : chainTypesOk ns = true) (hlen : ns.length ≤ 1000) :
    (mkChain ns).validate = .ok () := by
  obtain ⟨h0, t0, rfl⟩ : ∃ h0 t0, ns = h0 :: t0 := by
    cases ns with
    | nil => exact absurd rfl hne
    | cons a b => exact ⟨a, b, rfl⟩
  have hent : (mkChain (h0 :: t0)).entrypoint = some h0.name := by
    simp [mkChain]
  have hlk : lookupA (mkChain (h0 :: t0)).nodes h0.name = some h0 :=
    lookupA_map_of_mem _ h0 (by simp) hnd
  have hck := chain_checkEdges_ok (h0 :: t0) hnd (h0 :: t0) (fun x hx => hx) hty
  have hcnt : ¬((mkChain (h0 :: t0)).nodes.length > 1000) := by
    simp only [mkChain, List.length_map]
    omega
  have hck2 : (mkChain (h0 :: t0)).checkEdges (mkChain (h0 :: t0)).edges = .ok () := hck
  have hn0 : h0.name ≠ "" := hname h0 (by simp)
  simp [Graph.validate, hent, hlk, hck2, hn0, hcnt]

/-- Characterization of lookup after a Python-dict assignment. -/
lemma lookupA_updateA {α : Type} :
    ∀ (l : List (String × α)) (k k2 : String) (v : α),
      lookupA (updateA l k v) k2 = if k = k2 then some v else lookupA l k2 := by
  intro l
  induction l with
  | nil => intro k k2 v; simp [updateA, lookupA]
  | cons p tl ih =>
      intro k k2 v
      obtain ⟨a, b⟩ := p
      by_cases hak : a = k
      · subst hak
        simp only [updateA, if_pos rfl]
        by_cases hk2 : a = k2
        · subst hk2; simp [lookupA]
        · simp [lookupA, hk2]
      · simp only [updateA, if_neg hak]
        by_cases hk2 : a = k2
        · subst hk2
          have hka : k ≠ a := fun h => hak h.symm
          simp [lookupA, hka]
        · simp [lookupA, hk2, ih]

/-- Chain evaluation only adds `node_outputs` entries, never removes them. -/
lemma chainEval_mono {V : Type} (env : Env V) :
    ∀ (l : List (Node V)) (st : RunState V) (input fo : V) (fs : RunState V),
      chainEval env st input l = some (fo, fs) →
      ∀ k, (lookupA st.node_outputs k).isSome → (lookupA fs.node_outputs k).isSome := by
  intro l
  induction l with
  | nil =>
      intro st input fo fs h k hk
      simp [chainEval] at h
      rw [← h.2]
      exact hk
  | cons n tl ih =>
      intro st input fo fs h k hk
      cases hv : env.validate n.input_model input with
      | none => simp [chainEval, hv] at h
      | some v =>
          cases hr : n.run v st with
          | humanInput => simp [chainEval, hv, hr] at h
          | err m => simp [chainEval, hv, hr] at h
          | ok out =>
              cases hvo : env.validate n.output_model out with
              | none => simp [chainEval, hv, hr, hvo] at h
              | some outv =>
                  have h2 : chainEval env { st with node_outputs := updateA st.node_outputs n.name (env.dump outv) } outv tl = some (fo, fs) := by
                    simp only [chainEval, hv, hr, hvo] at h
                    exact h
                  refine ih _ _ _ _ h2 k ?_
                  simp only [lookupA_updateA]
                  by_cases hkk : n.name = k
                  · simp [hkk]
                  · simp only [if_neg hkk]
                    exact hk

/-- After a successful chain evaluation, every evaluated node has an entry in
`node_outputs` of the final state. -/
lemma chainEval_outputs {V : Type} (env : Env V) :
    ∀ (l : List (Node V)) (st : RunState V) (input fo : V) (fs : RunState V),
      chainEval env st input l = some (fo, fs) →
      ∀ x ∈ l, (lookupA fs.node_outputs x.name).isSome := by
  intro l
  induction l with
  | nil => intro st input fo fs _ x hx; simp at hx
  | cons n tl ih =>
      intro st input fo fs h x hx
      cases hv : env.validate n.input_model input with
      | none => simp [chainEval, hv] at h
      | some v =>
          cases hr : n.run v st with
          | humanInput => simp [chainEval, hv, hr] at h
          | err m => simp [chainEval, hv, hr] at h
          | ok out =>
              cases hvo : env.validate n.output_model out with
              | none => simp [chainEval, hv, hr, hvo] at h
              | some outv =>
                  have h2 : chainEval env { st with node_outputs := updateA st.node_outputs n.name (env.dump outv) } outv tl = some (fo, fs) := by
                    simp only [chainEval, hv, hr, hvo] at h
                    exact h
                  rcases List.mem_cons.mp hx with h1 | h1
                  · subst h1
                    refine chainEval_mono env tl _ _ _ _ h2 x.name ?_
                    simp [lookupA_updateA]
                  · exact ih _ _ _ _ h2 x h1

/-- The central chain-execution lemma: with the loop positioned at node `n`
of the uniquely named chain `pre ++ n :: t`, enough fuel, a configured store,
and a successful chain evaluation of the remaining nodes, the loop finishes
with the chain's final output and state and emits exactly the
started/finished/checkpoint block per remaining node followed by
`run_finished`. -/
lemma chain_stepLoop {V : Type} (env : Env V) (all : List (Node V)) (rid : String)
    (hnd : (all.map Node.name).Nodup) :
    ∀ (t pre : List (Node V)) (n : Node V), all = pre ++ n :: t →
    ∀ (remaining : Nat), (n :: t).length ≤ remaining →
    ∀ (input : V) (st : RunState V) (lastOut : Option V) (s0 : PStore V)
      (acc : List Event) (finalOut : V) (finalSt : RunState V),
      chainEval env st input (n :: t) = some (finalOut, finalSt) →
      (stepLoopAux env (mkChain all) rid remaining (some n.name) input st lastOut
          (some s0) acc).result =
        .ok { run_id := rid, status := "finished", output := some finalOut,
              state := finalSt } ∧
      (stepLoopAux env (mkChain all) rid remaining (some n.name) input st lastOut
          (some s0) acc).emits =
        acc ++ chainEmits rid ((n :: t).map Node.name) ++ [runEv .run_finished rid] := by
  intro t
  induction t with
  | nil =>
      intro pre n hall remaining hrem input st lastOut s0 acc finalOut finalSt heval
      obtain ⟨r, rfl⟩ : ∃ r, remaining = r + 1 := by
        refine ⟨remaining - 1, ?_⟩
        simp at hrem
        omega
      have hmem : n ∈ all := by rw [hall]; simp
      have hlk : lookupA (mkChain all).nodes n.name = some n :=
        lookupA_map_of_mem all n hmem hnd
      have hsucc : (mkChain all).successors n.name = [] := by
        rw [hall]
        simpa using mkChain_successors pre n [] (hall ▸ hnd)
      cases hv : env.validate n.input_model input with
      | none => simp [chainEval, hv] at heval
      | some v =>
          cases hr : n.run v st with
          | humanInput => simp [chainEval, hv, hr] at heval
          | err m => simp [chainEval, hv, hr] at heval
          | ok out =>
              cases hvo : env.validate n.output_model out with
              | none => simp [chainEval, hv, hr, hvo] at heval
              | some outv =>
                  simp only [chainEval, hv, hr, hvo, Option.some.injEq, Prod.mk.injEq] at heval
                  obtain ⟨hfo, hfs⟩ := heval
                  subst hfo
                  subst hfs
                  constructor
                  · simp only [stepLoopAux, hlk, hv, hr, hvo, hsucc, emitStore,
                      Option.map]
                  · simp only [stepLoopAux, hlk, hv, hr, hvo, hsucc, emitStore,
                      Option.map, chainEmits, runEv, List.map_cons, List.map_nil]
                    simp [List.append_assoc]
  | cons m t2 ih =>
      intro pre n hall remaining hrem input st lastOut s0 acc finalOut finalSt heval
      obtain ⟨r, rfl⟩ : ∃ r, remaining = r + 1 := by
        refine ⟨remaining - 1, ?_⟩
        simp at hrem
        omega
      have hrem2 : (m :: t2).length ≤ r := by
        simp at hrem ⊢
        omega
      have hmem : n ∈ all := by rw [hall]; simp
      have hlk : lookupA (mkChain all).nodes n.name = some n :=
        lookupA_map_of_mem all n hmem hnd
      have hsucc : (mkChain all).successors n.name = [m.name] := by
        rw [hall]
        simpa using mkChain_successors pre n (m :: t2) (hall ▸ hnd)
      have hall2 : all = (pre ++ [n]) ++ m :: t2 := by rw [hall]; simp
      cases hv : env.validate n.input_model input with
      | none => simp [chainEval, hv] at heval
      | some v =>
          cases hr : n.run v st with
          | humanInput => simp [chainEval, hv, hr] at heval
          | err msg => simp [chainEval, hv, hr] at heval
          | ok out =>
              cases hvo : env.validate n.output_model out with
              | none => simp [chainEval, hv, hr, hvo] at heval
              | some outv =>
                  have heval2 : chainEval env { st with node_outputs := updateA st.node_outputs n.name (env.dump outv) } outv (m :: t2) =
                      some (finalOut, finalSt) := by
                    simp only [chainEval, hv, hr, hvo] at heval
                    simpa only [chainEval] using heval
                  have ih2 := ih (pre ++ [n]) m hall2 r hrem2
                  constructor
                  · simp only [stepLoopAux, hlk, hv, hr, hvo, hsucc, emitStore,
                      Option.map]
                    exact (ih2 outv _ (some outv) _ _ _ _ heval2).1
                  · simp only [stepLoopAux, hlk, hv, hr, hvo, hsucc, emitStore,
                      Option.map]
                    rw [(ih2 outv _ (some outv) _ _ _ _ heval2).2]
                    simp [chainEmits, runEv, List.append_assoc]

/-- Counting events distributes over cons. -/
lemma countEv_cons (e : Event) (rest : List Event) (t : EvType) :
    countEv (e :: rest) t = (if e.type == t then 1 else 0) + countEv rest t := by
  by_cases h : (e.type == t) = true
  · simp [countEv, List.filter_cons, h, Nat.add_comm]
  · simp [countEv, List.filter_cons, h]

/-- Per-node event blocks contain one `node_started` per node. -/
lemma chainEmits_count_started (rid : String) :
    ∀ names : List String,
      countEv (chainEmits rid names) .node_started = names.length := by
  intro names
  induction names with
  | nil => simp [chainEmits, countEv]
  | cons a tl ih => simp [chainEmits, countEv_cons, ih, beq_iff_eq]; omega

/-- Per-node event blocks contain one `node_finished` per node. -/
lemma chainEmits_count_finished (rid : String) :
    ∀ names : List String,
      countEv (chainEmits rid names) .node_finished = names.length := by
  intro names
  induction names with
  | nil => simp [chainEmits, countEv]
  | cons a tl ih => simp [chainEmits, countEv_cons, ih, beq_iff_eq]; omega

/-- Per-node event blocks contain one `checkpoint_saved` per node. -/
lemma chainEmits_count_ckpt (rid : String) :
    ∀ names : List String,
      countEv (chainEmits rid names) .checkpoint_saved = names.length := by
  intro names
  induction names with
  | nil => simp [chainEmits, countEv]
  | cons a tl ih => simp [chainEmits, countEv_cons, ih, beq_iff_eq]; omega

/-- Per-node event blocks contain no run-scoped events. -/
lemma chainEmits_count_run (rid : String) :
    ∀ names : List String,
      countEv (chainEmits rid names) .run_started = 0 ∧
      countEv (chainEmits rid names) .run_finished = 0 := by
  intro names
  induction names with
  | nil => simp [chainEmits, countEv]
  | cons a tl ih => simp [chainEmits, countEv_cons, ih, beq_iff_eq]

/-- C1 (amended): a fresh run, with a persistence backend configured, of a
linear chain of 1 ≤ N ≤ 1000 uniquely and nonemptily named nodes whose
consecutive output/input model classes are identical, on which every per-step
validation and every node invocation succeeds (witnessed by `chainEval`),
emits exactly N `node_started`, N `node_finished` and N `checkpoint_saved`
events bracketed by one leading `run_started` and one trailing
`run_finished`, returns status "finished" with the last node's (coerced)
output and the final state, and that state's `node_outputs` holds an entry
for every node of the chain. -/
theorem C1_linear_chain_amended {V : Type} (env : Env V) (s0 : PStore V)
    (ns : List (Node V)) (input : V) (fid : String) (finalOut : V)
    (finalSt : RunState V)
    (hne : ns ≠ [])
    (hname : ∀ n ∈ ns, n.name ≠ "")
    (hnd : (ns.map Node.name).Nodup)
    (hty : chainTypesOk ns = true)
    (hlen : ns.length ≤ 1000)
    (heval : chainEval env { run_id := fid } input ns = some (finalOut, finalSt)) :
    countEv (GraphRunner.run env (some s0) (mkChain ns) input none none fid).emits .node_started = ns.length ∧
    countEv (GraphRunner.run env (some s0) (mkChain ns) input none none fid).emits .node_finished = ns.length ∧
    countEv (GraphRunner.run env (some s0) (mkChain ns) input none none fid).emits .checkpoint_saved = ns.length ∧
    countEv (GraphRunner.run env (some s0) (mkChain ns) input none none fid).emits .run_started = 1 ∧
    countEv (GraphRunner.run env (some s0) (mkChain ns) input none none fid).emits .run_finished = 1 ∧
    (GraphRunner.run env (some s0) (mkChain ns) input none none fid).emits.head? = some (runEv .run_started fid) ∧
    (GraphRunner.run env (some s0) (mkChain ns) input none none fid).emits.getLast? = some (runEv .run_finished fid) ∧
    (GraphRunner.run env (some s0) (mkChain ns) input none none fid).result =
      .ok { run_id := fid, status := "finished", output := some finalOut,
            state := finalSt } ∧
    (∀ n ∈ ns, (lookupA finalSt.node_outputs n.name).isSome) := by
  have hval := mkChain_validate_ok ns hne hname hnd hty hlen
  obtain ⟨h0, t0, rfl⟩ : ∃ h0 t0, ns = h0 :: t0 := by
    cases ns with
    | nil => exact absurd rfl hne
    | cons a b => exact ⟨a, b, rfl⟩
  have hfuel : (h0 :: t0).length ≤ 10000 := by omega
  have hloop := chain_stepLoop env (h0 :: t0) fid hnd t0 [] h0 rfl 10000 hfuel
    input { run_id := fid } none
    ((s0.create_run fid).add_event env (runEv .run_started fid))
    [runEv .run_started fid] finalOut finalSt heval
  have hrun_eq : GraphRunner.run env (some s0) (mkChain (h0 :: t0)) input none none fid =
      stepLoopAux env (mkChain (h0 :: t0)) fid 10000 (some h0.name) input
        { run_id := fid } none
        (some ((s0.create_run fid).add_event env (runEv .run_started fid)))
        [runEv .run_started fid] := by
    simp only [GraphRunner.run, hval]
    rfl
  obtain ⟨hres, hemits⟩ := hloop
  rw [hrun_eq, hres, hemits]
  have hnil : ∀ t : EvType, countEv [] t = 0 := fun _ => rfl
  refine ⟨?_, ?_, ?_, ?_, ?_, ?_, ?_, rfl, ?_⟩
  · simp [countEv_append, chainEmits_count_started, countEv_cons, hnil, runEv,
      beq_iff_eq]
  · simp [countEv_append, chainEmits_count_finished, countEv_cons, hnil, runEv,
      beq_iff_eq]
  · simp [countEv_append, chainEmits_count_ckpt, countEv_cons, hnil, runEv,
      beq_iff_eq]
  · simp [countEv_append, (chainEmits_count_run fid (h0.name :: List.map Node.name t0)).1,
      countEv_cons, hnil, runEv, beq_iff_eq]
  · simp [countEv_append, (chainEmits_count_run fid (h0.name :: List.map Node.name t0)).2,
      countEv_cons, hnil, runEv, beq_iff_eq]
  · simp
  · rw [List.getLast?_concat]
  · exact chainEval_outputs env _ _ _ _ _ heval

/-- Counterexample to C1 as stated: a two-node linear chain (entrypoint set,
every value validates under the all-accepting environment, both nodes always
succeed) whose two statically declared model classes differ.  The claimed "N
node_started / node_finished / checkpoint_saved events" (here N = 2) do not
occur: `run` raises the graph ValidationError during `graph.validate()` and
emits no event at all.  The claim as frozen also quantifies over every N ≥ 1
with no bound, while `validate()` rejects any graph of more than 1000 nodes
(claim C5), so N ≤ 1000 is likewise required. -/
theorem C1_counterexample :
    GraphRunner.run envId (some {}) (mkChain [nodeBadOut, nodeInc]) 5 none none "f" =
      { result := .error (.graphInvalid (.typeMismatch "x" "a" 1 0)),
        store := some {}, emits := [] } ∧
    countEv (GraphRunner.run envId (some {}) (mkChain [nodeBadOut, nodeInc]) 5 none
        none "f").emits .node_started = 0 ∧
    (mkChain [nodeBadOut, nodeInc]).nodes.length = 2 :=
  ⟨rfl, rfl, rfl⟩

/-- Witness for C1 (amended) on the concrete two-node chain a(+1) → b(*2)
with input 1: output 4, both outputs recorded, 2 of each per-node event. -/
theorem C1_linear_chain_amended_witness :
    countEv (GraphRunner.run envId (some {}) (mkChain [nodeInc, nodeDbl]) 1 none none
        "f").emits .node_started = 2 ∧
    countEv (GraphRunner.run envId (some {}) (mkChain [nodeInc, nodeDbl]) 1 none none
        "f").emits .checkpoint_saved = 2 ∧
    (GraphRunner.run envId (some {}) (mkChain [nodeInc, nodeDbl]) 1 none none
        "f").result =
      .ok { run_id := "f", status := "finished", output := some 4,
            state := { run_id := "f", node_outputs := [("a", 2), ("b", 4)] } } := by
  have h := C1_linear_chain_amended envId {} [nodeInc, nodeDbl] 1 "f" 4
    { run_id := "f", node_outputs := [("a", 2), ("b", 4)] }
    (List.cons_ne_nil _ _) (by decide) (by decide) (by decide) (by decide) rfl
  exact ⟨h.1, h.2.2.1, h.2.2.2.2.2.2.2.1⟩

end Orca
